import Mathlib

/-!
Verification of the dev-events data-access layer.

Shallow embedding of the repository's code: the cached database connection
helper, the Event schema (slugify, date/time normalization, pre-save hook)
and the Booking schema (email validation, referential existence check).

Strings are modelled as `List Char`.  JavaScript's `String.prototype.trim`
and the regex class `\s` use the same set of white-space code points, which
`isJsSpace` lists.  `toLowerCase` is modelled by its ASCII case mapping:
every non-ASCII character is removed by slugify's invalid-character filter,
so the full Unicode mapping is observationally irrelevant to the properties
proved here.
-/

namespace DevEvents

/-- The ECMAScript white-space and line-terminator code points: the set
matched by the regex class `\s` and stripped by `String.prototype.trim`.
(9 = TAB, 10 = LF, 11 = VT, 12 = FF, 13 = CR, 32 = SP, 160 = NBSP,
5760 = OGHAM, 8192-8202 = en/em spaces, 8232/8233 = LS/PS, 8239 = NNBSP,
8287 = MMSP, 12288 = IDSP, 65279 = BOM). -/
def isJsSpace (c : Char) : Bool :=
  let n := c.toNat
  (9 ≤ n && n ≤ 13) || n = 32 || n = 160 || n = 5760 ||
  (8192 ≤ n && n ≤ 8202) || n = 8232 || n = 8233 || n = 8239 ||
  n = 8287 || n = 12288 || n = 65279

/-- ASCII upper-case letter `A`-`Z` (codes 65-90). -/
def isAsciiUpper (c : Char) : Bool := 65 ≤ c.toNat && c.toNat ≤ 90

/-- ASCII lower-case letter `a`-`z` (codes 97-122). -/
def isAsciiLower (c : Char) : Bool := 97 ≤ c.toNat && c.toNat ≤ 122

/-- ASCII digit `0`-`9` (codes 48-57). -/
def isAsciiDigit (c : Char) : Bool := 48 ≤ c.toNat && c.toNat ≤ 57

/-- The map `String.prototype.toLowerCase`, restricted to its ASCII case
mapping. -/
def jsToLowerChar (c : Char) : Char :=
  if isAsciiUpper c then Char.ofNat (c.toNat + 32) else c

/-- Lower-casing `value.toLowerCase()` character by character. -/
def jsToLower (l : List Char) : List Char := l.map jsToLowerChar

/-- Trimming `value.trim()`: strip `isJsSpace` characters from both
ends. -/
def jsTrim (l : List Char) : List Char :=
  ((l.dropWhile isJsSpace).reverse.dropWhile isJsSpace).reverse

/-- A character matched by the regex class `[_\s]` in
`.replace(/[_\s]+/g, '-')`. -/
def isRunChar (c : Char) : Bool := c = '_' || isJsSpace c

/-- The replace `.replace(/[_\s]+/g, '-')`: every maximal run of
spaces/underscores becomes a single dash.  The boolean argument records
whether the previous character belonged to such a run. -/
def dashRunsAux : Bool → List Char → List Char
  | _, [] => []
  | inRun, c :: rest =>
    if isRunChar c then
      (if inRun then [] else ['-']) ++ dashRunsAux true rest
    else
      c :: dashRunsAux false rest

/-- The replace `.replace(/[_\s]+/g, '-')`. -/
def dashRuns (l : List Char) : List Char := dashRunsAux false l

/-- A character kept by `.replace(/[^a-z0-9-]/g, '')`:
lower-case letter, digit, or dash (code 45). -/
def isSlugKeep (c : Char) : Bool :=
  isAsciiLower c || isAsciiDigit c || c.toNat = 45

/-- The dash-collapsing replace (regex: one or more dashes, global) of
slugify: collapse maximal runs of dashes into one dash.  The boolean
argument records whether the previous character was a dash. -/
def collapseDashAux : Bool → List Char → List Char
  | _, [] => []
  | prevDash, c :: rest =>
    if c = '-' then
      (if prevDash then [] else ['-']) ++ collapseDashAux true rest
    else
      c :: collapseDashAux false rest

/-- The dash-collapsing replace of slugify. -/
def collapseDashes (l : List Char) : List Char := collapseDashAux false l

/-- The `^-` alternative of `.replace(/^-|-$/g, '')`: remove one leading
dash. -/
def dropLeadDash : List Char → List Char
  | '-' :: rest => rest
  | l => l

/-- The `-$` alternative of `.replace(/^-|-$/g, '')`: remove one trailing
dash. -/
def dropTrailDash (l : List Char) : List Char :=
  if l.getLast? = some '-' then l.dropLast else l

/-- The function `slugify` from the Event model:
lower-case, trim, spaces/underscores to dashes, invalid characters removed,
dashes collapsed, leading/trailing dash trimmed. -/
def slugify (l : List Char) : List Char :=
  dropTrailDash (dropLeadDash (collapseDashes
    (List.filter isSlugKeep (dashRuns (jsTrim (jsToLower l))))))

end DevEvents

namespace DevEvents

example : slugify "Dev  Summit!".data = "dev-summit".data := by decide
example : slugify "  _Hello__World_  ".data = "hello-world".data := by decide
example : slugify "!!!".data = [] := by decide
example : slugify "a--b".data = "a-b".data := by decide
example : slugify "-".data = [] := by decide

/-! ## Decimal formatting

`n.toString().padStart(k, '0')`: for `n` below `10^k` this is exactly the
`k` decimal digits of `n`, most significant first, which is what the
functions below produce.  Every call site bounds `n` accordingly (hours
and minutes are at most 59, months/days at most 31, the year is at most
9999 in the four-digit branch and at most 275760 in the six-digit
expanded-year branch of `toISOString`). -/

/-- The decimal digit character for `n < 10` (codes 48-57). -/
def digitChar (n : Nat) : Char := Char.ofNat (48 + n)

/-- Numeric value of a decimal digit character. -/
def dval (c : Char) : Nat := c.toNat - 48

/-- Rendering `n.toString().padStart(2, '0')` for `n ≤ 99`. -/
def pad2 (n : Nat) : List Char := [digitChar (n / 10), digitChar (n % 10)]

/-- Rendering `n.toString().padStart(4, '0')` for `n ≤ 9999`. -/
def pad4 (n : Nat) : List Char :=
  [digitChar (n / 1000), digitChar (n / 100 % 10),
   digitChar (n / 10 % 10), digitChar (n % 10)]

/-- Rendering `n.toString().padStart(6, '0')` for `n ≤ 999999`. -/
def pad6 (n : Nat) : List Char :=
  [digitChar (n / 100000), digitChar (n / 10000 % 10),
   digitChar (n / 1000 % 10), digitChar (n / 100 % 10),
   digitChar (n / 10 % 10), digitChar (n % 10)]

/-! ## Time normalization -/

/-- The anchored time regex of `normalizeTime`:
one or two digit hours, colon, two digit minutes, optional colon and two
digit seconds.  Returns `(hours, minutes)` as produced by
`Number(match[1])` and `Number(match[2])`; the seconds group is matched
but never read. -/
def timeRegexMatch : List Char → Option (Nat × Nat)
  | [a, ':', c, d] =>
    if isAsciiDigit a && isAsciiDigit c && isAsciiDigit d then
      some (dval a, 10 * dval c + dval d)
    else none
  | [a, b, ':', c, d] =>
    if isAsciiDigit a && isAsciiDigit b && isAsciiDigit c && isAsciiDigit d then
      some (10 * dval a + dval b, 10 * dval c + dval d)
    else none
  | [a, ':', c, d, ':', e, f] =>
    if isAsciiDigit a && isAsciiDigit c && isAsciiDigit d &&
        isAsciiDigit e && isAsciiDigit f then
      some (dval a, 10 * dval c + dval d)
    else none
  | [a, b, ':', c, d, ':', e, f] =>
    if isAsciiDigit a && isAsciiDigit b && isAsciiDigit c && isAsciiDigit d &&
        isAsciiDigit e && isAsciiDigit f then
      some (10 * dval a + dval b, 10 * dval c + dval d)
    else none
  | _ => none

/-- The function `normalizeTime` from the Event model: trim, match the
time regex,
bound-check hours and minutes, and re-render as two zero-padded digit
pairs separated by a colon. -/
def normalizeTime (value : List Char) : Except String (List Char) :=
  match timeRegexMatch (jsTrim value) with
  | none => .error "Invalid event time; expected HH:mm"
  | some (hours, minutes) =>
    if 23 < hours || 59 < minutes then
      .error "Invalid event time; hour must be 0-23 and minutes 0-59"
    else
      .ok (pad2 hours ++ ':' :: pad2 minutes)

example : normalizeTime "9:30".data = .ok "09:30".data := rfl
example : normalizeTime " 23:59:59 ".data = .ok "23:59".data := rfl
example : normalizeTime "24:00".data =
    .error "Invalid event time; hour must be 0-23 and minutes 0-59" := rfl
example : normalizeTime "9:3".data =
    .error "Invalid event time; expected HH:mm" := rfl

/-! ## Date normalization

`normalizeDate` calls `new Date(value)` and, when the result is a valid
time value, renders `date.toISOString().split('T')[0]`.  The host `Date`
constructor is modelled as an arbitrary function
`parse : List Char → Option Int` returning the time value in milliseconds
since the epoch (`none` for `NaN`); `parseEcmaDateOnly` below is a concrete
instance covering the date-only productions of the ECMAScript Date Time
String Format.  `toISOString` is modelled exactly as ECMAScript specifies:
the proleptic Gregorian calendar date of `floor(t / 86400000)` days from
1970-01-01, rendered with a four-digit year for years 0 to 9999 and in the
expanded form (sign and six-digit year) otherwise. -/

/-- Milliseconds per day (`msPerDay`). -/
def msPerDay : Int := 86400000

/-- Largest valid ECMAScript time value (8.64e15 ms). -/
def maxTimeValue : Nat := 8640000000000000

/-- Day of the 400-year Gregorian era containing the given day number
(the epoch 1970-01-01 is day 719468 of its era, counted from a March 1st
era start).  Equals
`(days + 719468) - 146097 * floor((days + 719468) / 146097)` and lies in
`[0, 146096]`. -/
def doeOfDays (days : Int) : Nat := ((days + 719468) % 146097).toNat

/-- Year of the 400-year era containing `doe` (0 to 399). -/
def yoeOfDoe (doe : Nat) : Nat :=
  (doe - doe / 1460 + doe / 36524 - doe / 146096) / 365

/-- Day of the March-based year (0 to 365). -/
def doyOfDoe (doe : Nat) : Nat :=
  doe - (365 * yoeOfDoe doe + yoeOfDoe doe / 4 - yoeOfDoe doe / 100)

/-- March-based month index (0 = March, ..., 11 = February). -/
def mpOfDoe (doe : Nat) : Nat := (5 * doyOfDoe doe + 2) / 153

/-- Proleptic Gregorian `(year, month, day)` of a day number (days since
1970-01-01): the calendar ECMAScript's `YearFromTime`, `MonthFromTime`
and `DateFromTime` specify, computed by the standard civil-from-days
algorithm over 400-year eras. -/
def civilFromDays (days : Int) : Int × Nat × Nat :=
  let era : Int := (days + 719468) / 146097
  let doe := doeOfDays days
  let yoe := yoeOfDoe doe
  let doy := doyOfDoe doe
  let mp := mpOfDoe doe
  let d := doy - (153 * mp + 2) / 5 + 1
  let m := if mp < 10 then mp + 3 else mp - 9
  let y : Int := (yoe : Int) + era * 400
  (if m ≤ 2 then y + 1 else y, m, d)

/-- Day number (days since 1970-01-01) of a proleptic Gregorian date;
the inverse of `civilFromDays` on valid dates. -/
def daysFromCivil (y : Int) (m d : Nat) : Int :=
  let yAdj : Int := if m ≤ 2 then y - 1 else y
  let era : Int := yAdj / 400
  let yoe : Nat := (yAdj - era * 400).toNat
  let doy : Nat := (153 * (if 2 < m then m - 3 else m + 9) + 2) / 5 + (d - 1)
  let doe : Nat := yoe * 365 + yoe / 4 - yoe / 100 + doy
  era * 146097 + (doe : Int) - 719468

/-- The date part of `toISOString` — everything before the `T` — of a time
value `t`: `YYYY-MM-DD` when the year lies in 0 to 9999, otherwise the
ECMAScript expanded form, a `+` or `-` sign followed by a six-digit year. -/
def isoDateOfTimestamp (t : Int) : List Char :=
  let c := civilFromDays (t / msPerDay)
  let y := c.1
  let m := c.2.1
  let d := c.2.2
  (if 0 ≤ y ∧ y ≤ 9999 then pad4 y.toNat
   else (if y < 0 then ['-'] else ['+']) ++ pad6 y.natAbs) ++
    '-' :: pad2 m ++ '-' :: pad2 d

/-- The function `normalizeDate` from the Event model: `new Date(value)`
(modelled by
`parse`), throwing for an invalid time value, else the date part of
`toISOString`. -/
def normalizeDate (parse : List Char → Option Int) (value : List Char) :
    Except String (List Char) :=
  match parse value with
  | none => .error "Invalid event date"
  | some t => .ok (isoDateOfTimestamp t)

/-- Whether year `y` is a Gregorian leap year (ECMAScript `DaysInYear`). -/
def isLeapYear (y : Int) : Bool :=
  y % 4 = 0 && (y % 100 ≠ 0 || y % 400 = 0)

/-- Days in month `m` (1-12) of year `y`. -/
def daysInMonth (y : Int) (m : Nat) : Nat :=
  if m = 2 then (if isLeapYear y then 29 else 28)
  else if m = 4 || m = 6 || m = 9 || m = 11 then 30
  else 31

/-- Value of a list of decimal digit characters, `none` unless all are
digits. -/
def digitsValue : List Char → Option Nat
  | [] => some 0
  | c :: rest =>
    if isAsciiDigit c then
      (digitsValue rest).map (fun v => dval c * 10 ^ rest.length + v)
    else none

/-- Time value of a calendar date interpreted at UTC midnight, `none` when
any component is out of range or the result exceeds the ECMAScript time
value range (`TimeClip`). -/
def timeValueOfCivil (y : Int) (m d : Nat) : Option Int :=
  if 1 ≤ m && m ≤ 12 && 1 ≤ d && d ≤ daysInMonth y m then
    let t := daysFromCivil y m d * msPerDay
    if t.natAbs ≤ maxTimeValue then some t else none
  else none

/-- Modelled from the ECMAScript Date Time String Format restricted to its
date-only productions: `YYYY-MM-DD`, or an expanded year `+YYYYYY-MM-DD` /
`-YYYYYY-MM-DD` (with `-000000` invalid), interpreted as UTC midnight.
This is the portion of `new Date(string)` parsing the language
specification mandates for date-only strings; other host-recognized
formats are outside this model. -/
def parseEcmaDateOnly (l : List Char) : Option Int :=
  match l with
  | ['+', y1, y2, y3, y4, y5, y6, '-', m1, m2, '-', d1, d2] =>
    match digitsValue [y1, y2, y3, y4, y5, y6], digitsValue [m1, m2],
        digitsValue [d1, d2] with
    | some y, some m, some d => timeValueOfCivil (y : Int) m d
    | _, _, _ => none
  | ['-', y1, y2, y3, y4, y5, y6, '-', m1, m2, '-', d1, d2] =>
    match digitsValue [y1, y2, y3, y4, y5, y6], digitsValue [m1, m2],
        digitsValue [d1, d2] with
    | some y, some m, some d =>
      if y = 0 then none else timeValueOfCivil (-(y : Int)) m d
    | _, _, _ => none
  | [y1, y2, y3, y4, '-', m1, m2, '-', d1, d2] =>
    match digitsValue [y1, y2, y3, y4], digitsValue [m1, m2],
        digitsValue [d1, d2] with
    | some y, some m, some d => timeValueOfCivil (y : Int) m d
    | _, _, _ => none
  | _ => none

example : normalizeDate parseEcmaDateOnly "2024-03-05".data =
    .ok "2024-03-05".data := rfl
example : normalizeDate parseEcmaDateOnly "2024-02-30".data =
    .error "Invalid event date" := rfl
example : normalizeDate parseEcmaDateOnly "not a date".data =
    .error "Invalid event date" := rfl
example : normalizeDate parseEcmaDateOnly "+010000-01-01".data =
    .ok "+010000-01-01".data := rfl
example : normalizeDate parseEcmaDateOnly "1969-12-31".data =
    .ok "1969-12-31".data := rfl
example : normalizeDate parseEcmaDateOnly "2000-02-29".data =
    .ok "2000-02-29".data := rfl
example : normalizeDate parseEcmaDateOnly "-000001-12-31".data =
    .ok "-000001-12-31".data := rfl

/-! ## The Event model

`EventAttrs` with every field present; mongoose timestamps and the
`_id`/`isNew` machinery are outside the model.  Saving is modelled as the
schema's `pre('save')` hook applied to the typed document; the
schema-level validators (`required`, the agenda/tags validators) enforce
conditions the hook re-checks itself, and the field-level `trim` setters
are subsumed by the hook's own trimming, so the hook fully determines the
stored document and the error behaviour modelled here.  `isModified` is
modelled by a record of flags for the three paths the hook consults; on a
newly created document every path is modified. -/

structure Event where
  title : List Char
  slug : List Char
  description : List Char
  overview : List Char
  image : List Char
  venue : List Char
  location : List Char
  date : List Char
  time : List Char
  mode : List Char
  audience : List Char
  organizer : List Char
  agenda : List (List Char)
  tags : List (List Char)
deriving Repr, DecidableEq

/-- The results of `this.isModified(path)` for the paths the pre-save hook
consults. -/
structure Modified where
  title : Bool
  date : Bool
  time : Bool
deriving Repr, DecidableEq

/-- On a newly created document every path is modified. -/
def allModified : Modified := ⟨true, true, true⟩

/-- The error message of the required-string-field loop. -/
def reqMsg (name : String) : String :=
  "Field \"" ++ name ++ "\" is required and cannot be empty"

/-- The `requiredStringFields` list of the pre-save hook, paired with each
field's raw value, in the order the hook iterates them. -/
def eventFields (e : Event) : List (String × List Char) :=
  [("title", e.title), ("description", e.description),
   ("overview", e.overview), ("image", e.image), ("venue", e.venue),
   ("location", e.location), ("date", e.date), ("time", e.time),
   ("mode", e.mode), ("audience", e.audience), ("organizer", e.organizer)]

/-- The required-string-field loop of the hook: the first field of
`requiredStringFields` whose value is empty after trimming, if any.
(The `typeof raw !== 'string'` disjunct of the source's test cannot fail
in this typed model.) -/
def firstEmptyField (e : Event) : Option (String × List Char) :=
  (eventFields e).find? (fun p => (jsTrim p.2).isEmpty)

/-- The Event `pre('save')` hook: reject the first required string field
that is empty after trimming (persisting the trimmed values), reject an
empty agenda or tags array, regenerate the slug from the title when the
title is modified (rejecting an empty slug), and normalize the date and
time when modified.  The order of the checks is the source's order, so
the first failing check determines the error. -/
def eventPreSave (parse : List Char → Option Int) (md : Modified)
    (e : Event) : Except String Event :=
  match firstEmptyField e with
  | some p => .error (reqMsg p.1)
  | none =>
    if e.agenda.isEmpty then
      .error "Field \"agenda\" is required and cannot be empty"
    else if e.tags.isEmpty then
      .error "Field \"tags\" is required and cannot be empty"
    else if md.title && (slugify (jsTrim e.title)).isEmpty then
      .error "Generated slug is empty; check event title"
    else
      match (if md.date then normalizeDate parse (jsTrim e.date)
               else .ok (jsTrim e.date)),
            (if md.time then normalizeTime (jsTrim e.time)
               else .ok (jsTrim e.time)) with
      | .error msg, _ => .error msg
      | .ok _, .error msg => .error msg
      | .ok date, .ok time =>
        .ok { title := jsTrim e.title
              slug := if md.title then slugify (jsTrim e.title) else e.slug
              description := jsTrim e.description
              overview := jsTrim e.overview
              image := jsTrim e.image
              venue := jsTrim e.venue
              location := jsTrim e.location
              date := date
              time := time
              mode := jsTrim e.mode
              audience := jsTrim e.audience
              organizer := jsTrim e.organizer
              agenda := e.agenda
              tags := e.tags }

/-- A well-formed event document, used as concrete input below. -/
def evOk : Event :=
  { title := "Dev  Summit!".data
    slug := []
    description := " A summit. ".data
    overview := "Overview".data
    image := "img.png".data
    venue := "Main Hall".data
    location := "Berlin".data
    date := "2024-03-05".data
    time := "9:30".data
    mode := "online".data
    audience := "developers".data
    organizer := "ACME".data
    agenda := ["intro".data, "talks".data]
    tags := ["dev".data] }

/-- The stored form of `evOk`. -/
def evOkStored : Event :=
  { title := "Dev  Summit!".data
    slug := "dev-summit".data
    description := "A summit.".data
    overview := "Overview".data
    image := "img.png".data
    venue := "Main Hall".data
    location := "Berlin".data
    date := "2024-03-05".data
    time := "09:30".data
    mode := "online".data
    audience := "developers".data
    organizer := "ACME".data
    agenda := ["intro".data, "talks".data]
    tags := ["dev".data] }

example : eventPreSave parseEcmaDateOnly allModified evOk = .ok evOkStored := rfl

/-! ## The Booking model -/

structure Booking where
  eventId : Nat
  email : List Char
deriving Repr, DecidableEq

/-- The character class `[^\s@]` of the email regex. -/
def noSpaceAt (c : Char) : Bool := !isJsSpace c && c ≠ '@'

/-- Denotation of the anchored email regex
`^[^\s@]+@[^\s@]+\.[^\s@]+$`: the string splits into a non-empty local
part, a literal `@`, a non-empty run, a literal `.` and a non-empty run,
every run drawn from `[^\s@]`. -/
def EmailRegexMatches (l : List Char) : Prop :=
  ∃ a b c : List Char,
    l = a ++ '@' :: (b ++ '.' :: c) ∧ a ≠ [] ∧ b ≠ [] ∧ c ≠ [] ∧
    a.all noSpaceAt = true ∧ b.all noSpaceAt = true ∧ c.all noSpaceAt = true

/-- Executable matcher for the email regex: no white space, exactly one
`@` with a non-empty part before it, and a `.` strictly inside the part
after it. -/
def emailMatches (l : List Char) : Bool :=
  let pre := l.takeWhile (fun c => c ≠ '@')
  match l.dropWhile (fun c => c ≠ '@') with
  | '@' :: post =>
    !pre.isEmpty && pre.all noSpaceAt && post.all noSpaceAt &&
      ((post.drop 1).dropLast.contains '.')
  | _ => false

example : emailMatches "a@b.c".data = true := by decide
example : emailMatches "a@b.c.d".data = true := by decide
example : emailMatches "a.b@c.d".data = true := by decide
example : emailMatches "a@b.".data = false := by decide
example : emailMatches "a@.b".data = false := by decide
example : emailMatches "@b.c".data = false := by decide
example : emailMatches "a@b@c.d".data = false := by decide
example : emailMatches "a b@c.d".data = false := by decide
example : emailMatches "a@bc".data = false := by decide
example : emailMatches "".data = false := by decide

/-- The stored form of the email: the schema's `trim` and `lowercase`
setters.  (ASCII lower-casing neither adds nor removes white space, so
the two setters commute and their application order is immaterial.) -/
def emailStored (raw : List Char) : List Char := jsToLower (jsTrim raw)

/-- Saving a Booking: the `trim`/`lowercase` setters followed by the
`pre('save')` hook, which rejects an email failing the regex and then a
referenced event id with no existing Event.  The set of existing Event
ids is modelled as a list; `Event.exists` is membership. -/
def bookingSave (events : List Nat) (b : Booking) : Except String Booking :=
  let stored : Booking := { b with email := emailStored b.email }
  if emailMatches stored.email then
    if events.contains stored.eventId then .ok stored
    else .error "Referenced event does not exist"
  else .error "Invalid email address"

example : bookingSave [7] { eventId := 7, email := " A@B.co ".data } =
    .ok { eventId := 7, email := "a@b.co".data } := rfl
example : bookingSave [] { eventId := 7, email := "a@b.co".data } =
    .error "Referenced event does not exist" := rfl
example : bookingSave [7] { eventId := 7, email := "bad".data } =
    .error "Invalid email address" := rfl

/-! ## The connection cache

`connectToDatabase` is an async function over the module-level cache
`{ conn, promise }`.  JavaScript runs the body synchronously up to the
`await`, so a call is modelled in two parts: `connectPhase1`, the
synchronous prefix (return the cached connection, or adopt the in-flight
promise, or start a new connection), and the resumption after the awaited
promise settles (assign `conn` on success; reset `promise` to `null` and
rethrow on failure).  `connectCall` composes the two for one caller.
Connections and errors are identified by numbers; `started` counts calls
to `mongoose.connect`, and `nextId` supplies fresh promise identities. -/

structure Cache where
  conn : Option Nat
  promise : Option Nat
deriving Repr, DecidableEq

structure World where
  cache : Cache
  nextId : Nat
  started : Nat
deriving Repr, DecidableEq

/-- Outcome of the synchronous prefix of `connectToDatabase`. -/
inductive Phase1 where
  | done (c : Nat)
  | awaiting (p : Nat)
deriving Repr, DecidableEq

/-- The synchronous prefix of `connectToDatabase`: return `cached.conn`
if set; otherwise create the connection promise only when
`cached.promise` is `null`; then suspend awaiting `cached.promise`. -/
def connectPhase1 (w : World) : World × Phase1 :=
  match w.cache.conn with
  | some c => (w, .done c)
  | none =>
    match w.cache.promise with
    | some p => (w, .awaiting p)
    | none =>
      ({ cache := { conn := none, promise := some w.nextId }
         nextId := w.nextId + 1
         started := w.started + 1 }, .awaiting w.nextId)

/-- One full sequential call to `connectToDatabase`: run the synchronous
prefix and, when suspended, settle the awaited promise via `resolve`
(success assigns `cached.conn` and returns it; failure resets
`cached.promise` to `null` and rethrows). -/
def connectCall (w : World) (resolve : Nat → Except Nat Nat) :
    World × Except Nat Nat :=
  match connectPhase1 w with
  | (w1, .done c) => (w1, .ok c)
  | (w1, .awaiting p) =>
    match resolve p with
    | .ok c =>
      ({ w1 with cache := { conn := some c, promise := w1.cache.promise } },
       .ok c)
    | .error e =>
      ({ w1 with cache := { conn := w1.cache.conn, promise := none } },
       .error e)

/-- The initial module state: `{ conn: null, promise: null }`. -/
def initialWorld : World := ⟨⟨none, none⟩, 0, 0⟩

example : connectCall initialWorld (fun _ => .ok 7) =
    (⟨⟨some 7, some 0⟩, 1, 1⟩, .ok 7) := rfl
example : connectCall initialWorld (fun _ => .error 3) =
    (⟨⟨none, none⟩, 1, 1⟩, .error 3) := rfl

/-! ## Claims C7 and C8: connection caching -/

/-- C7: `connectToDatabase` memoizes the connection.  After one successful
call — which leaves the world in state `w'` holding connection `c` — every
subsequent call returns the same connection `c` with the world unchanged
(in particular no new connection is initiated, whatever its promise would
resolve to), and any caller entering while a connection is in flight
(`conn` unset, `promise` set) adopts that single in-flight promise without
starting another connection or changing the world. -/
theorem connectToDatabase_memoizes (w w' : World)
    (resolve resolve' : Nat → Except Nat Nat) (c : Nat)
    (h : connectCall w resolve = (w', Except.ok c)) :
    connectCall w' resolve' = (w', Except.ok c) ∧
    (∀ p, w.cache.conn = none → w.cache.promise = some p →
      connectPhase1 w = (w, Phase1.awaiting p)) := by
  obtain ⟨⟨conn, prom⟩, nid, st⟩ := w
  constructor
  · have hconn : w'.cache.conn = some c := by
      cases conn with
      | some c0 =>
        simp only [connectCall, connectPhase1] at h
        obtain ⟨rfl, h2⟩ := Prod.mk.injEq .. ▸ h
        cases h2; rfl
      | none =>
        cases prom with
        | some p =>
          simp only [connectCall, connectPhase1] at h
          cases hr : resolve p with
          | ok c0 => rw [hr] at h; obtain ⟨rfl, h2⟩ := Prod.mk.injEq .. ▸ h; cases h2; rfl
          | error e => rw [hr] at h; obtain ⟨_, h2⟩ := Prod.mk.injEq .. ▸ h; cases h2
        | none =>
          simp only [connectCall, connectPhase1] at h
          cases hr : resolve nid with
          | ok c0 => rw [hr] at h; obtain ⟨rfl, h2⟩ := Prod.mk.injEq .. ▸ h; cases h2; rfl
          | error e => rw [hr] at h; obtain ⟨_, h2⟩ := Prod.mk.injEq .. ▸ h; cases h2
    simp only [connectCall, connectPhase1, hconn]
  · intro p h1 h2
    simp only at h1 h2
    simp only [connectPhase1, h1, h2]

/-- Witness for C7 at a concrete run: a successful first call from the
initial state caches connection 7, and a second call whose resolver would
fail still returns 7 with the world untouched. -/
theorem connectToDatabase_memoizes_witness :
    connectCall ⟨⟨some 7, some 0⟩, 1, 1⟩ (fun _ => Except.error 3) =
      (⟨⟨some 7, some 0⟩, 1, 1⟩, Except.ok 7) :=
  (connectToDatabase_memoizes initialWorld ⟨⟨some 7, some 0⟩, 1, 1⟩
    (fun _ => Except.ok 7) (fun _ => Except.error 3) 7 rfl).1

/-- C8: when the connection attempt fails, the failing call leaves the
cache in its initial state (`conn` and `promise` both `null`) and
rethrows, and the next call retries: it creates a fresh connection
promise and initiates one new connection rather than returning the failed
promise. -/
theorem connect_failure_resets (w w' : World)
    (resolve : Nat → Except Nat Nat) (e : Nat)
    (hconn : w.cache.conn = none)
    (h : connectCall w resolve = (w', Except.error e)) :
    w'.cache.conn = none ∧ w'.cache.promise = none ∧
    connectPhase1 w' =
      ({ cache := { conn := none, promise := some w'.nextId }
         nextId := w'.nextId + 1
         started := w'.started + 1 }, Phase1.awaiting w'.nextId) := by
  obtain ⟨⟨conn, prom⟩, nid, st⟩ := w
  simp only at hconn
  subst hconn
  have hw : w'.cache.conn = none ∧ w'.cache.promise = none := by
    cases prom with
    | some p =>
      simp only [connectCall, connectPhase1] at h
      cases hr : resolve p with
      | ok c0 => rw [hr] at h; obtain ⟨_, h2⟩ := Prod.mk.injEq .. ▸ h; cases h2
      | error e0 => rw [hr] at h; obtain ⟨rfl, h2⟩ := Prod.mk.injEq .. ▸ h; exact ⟨rfl, rfl⟩
    | none =>
      simp only [connectCall, connectPhase1] at h
      cases hr : resolve nid with
      | ok c0 => rw [hr] at h; obtain ⟨_, h2⟩ := Prod.mk.injEq .. ▸ h; cases h2
      | error e0 => rw [hr] at h; obtain ⟨rfl, h2⟩ := Prod.mk.injEq .. ▸ h; exact ⟨rfl, rfl⟩
  refine ⟨hw.1, hw.2, ?_⟩
  obtain ⟨⟨conn', prom'⟩, nid', st'⟩ := w'
  simp only at hw
  simp only [connectPhase1, hw.1, hw.2]

/-- Witness for C8 at a concrete run: a failing first call from the
initial state resets the cache, and the following call opens a fresh
connection promise. -/
theorem connect_failure_resets_witness :
    (⟨⟨none, none⟩, 1, 1⟩ : World).cache.conn = none ∧
    (⟨⟨none, none⟩, 1, 1⟩ : World).cache.promise = none ∧
    connectPhase1 ⟨⟨none, none⟩, 1, 1⟩ =
      (⟨⟨none, some 1⟩, 2, 2⟩, Phase1.awaiting 1) :=
  connect_failure_resets initialWorld ⟨⟨none, none⟩, 1, 1⟩
    (fun _ => Except.error 3) 3 rfl rfl

/-! ## The email matcher agrees with the regex denotation -/

/-- A list has a `.` strictly inside (neither first nor last position)
exactly when it splits as a non-empty part, the dot, and a non-empty
part. -/
theorem dot_strictly_inside (post : List Char) :
    '.' ∈ (post.drop 1).dropLast ↔
      ∃ b c : List Char, post = b ++ '.' :: c ∧ b ≠ [] ∧ c ≠ [] := by
  constructor
  · intro h
    cases post with
    | nil => simp at h
    | cons x rest =>
      have hr : rest ≠ [] := by rintro rfl; simp at h
      have h' : '.' ∈ rest.dropLast := by simpa using h
      obtain ⟨s, t, hst⟩ := List.append_of_mem h'
      obtain ⟨y, hy⟩ : ∃ y, rest.getLast hr = y := ⟨_, rfl⟩
      refine ⟨x :: s, t ++ [y], ?_, by simp, by simp⟩
      have hrest : rest = (s ++ '.' :: t) ++ [y] := by
        conv_lhs => rw [← List.dropLast_append_getLast hr]
        rw [hst, hy]
      rw [hrest]
      simp
  · rintro ⟨b, c, rfl, hb, hc⟩
    obtain ⟨x, b', rfl⟩ := List.exists_cons_of_ne_nil hb
    obtain ⟨c', y, rfl⟩ : ∃ c' y, c = c' ++ [y] :=
      ⟨c.dropLast, c.getLast hc, (List.dropLast_append_getLast hc).symm⟩
    have h1 : (x :: b' ++ '.' :: (c' ++ [y])).drop 1 = b' ++ '.' :: (c' ++ [y]) := by
      simp
    rw [h1]
    have h2 : (b' ++ '.' :: (c' ++ [y])).dropLast = b' ++ '.' :: c' := by
      rw [show b' ++ '.' :: (c' ++ [y]) = (b' ++ '.' :: c') ++ [y] by simp]
      exact List.dropLast_concat ..
    rw [h2]
    simp

/-- Scans `takeWhile`/`dropWhile` pass over a block of characters all
satisfying the predicate. -/
theorem takeWhile_of_all (p : Char → Bool) (a : List Char) (x : Char)
    (r : List Char) (ha : a.all p = true) :
    (a ++ x :: r).takeWhile p = a ++ (x :: r).takeWhile p ∧
    (a ++ x :: r).dropWhile p = (x :: r).dropWhile p := by
  induction a with
  | nil => simp
  | cons y ys ih =>
    simp only [List.all_cons, Bool.and_eq_true] at ha
    have := ih ha.2
    constructor
    · simp only [List.cons_append, List.takeWhile_cons, ha.1, if_true, this.1]
    · simp only [List.cons_append, List.dropWhile_cons, ha.1, if_true, this.2]

/-- The head of a `dropWhile` result fails the predicate. -/
theorem dropWhile_head_false (p : Char → Bool) (l : List Char) (z : Char)
    (post : List Char) (h : l.dropWhile p = z :: post) : p z = false := by
  induction l with
  | nil => simp at h
  | cons y ys ih =>
    rw [List.dropWhile_cons] at h
    by_cases hp : p y = true
    · rw [if_pos hp] at h; exact ih h
    · rw [if_neg hp] at h
      cases h
      simpa using hp

/-- The executable email matcher decides the regex denotation
`EmailRegexMatches`. -/
theorem emailMatches_iff (l : List Char) :
    emailMatches l = true ↔ EmailRegexMatches l := by
  constructor
  · intro h
    unfold emailMatches at h
    cases hd : l.dropWhile (fun c => c ≠ '@') with
    | nil => rw [hd] at h; simp at h
    | cons z post =>
      rw [hd] at h
      have hz : z = '@' := by
        have := dropWhile_head_false (fun c => c ≠ '@') l z post hd
        simpa using this
      subst hz
      simp only [Bool.and_eq_true, Bool.not_eq_true'] at h
      obtain ⟨⟨⟨hpre, hpreall⟩, hpostall⟩, hdot⟩ := h
      obtain ⟨b, c, hbc, hb, hc⟩ :=
        (dot_strictly_inside post).mp (by
          have : (post.drop 1).dropLast.contains '.' = true := hdot
          exact List.elem_iff.mp this)
      have hsplit := List.takeWhile_append_dropWhile
        (p := fun c => c ≠ '@') (l := l)
      rw [hd] at hsplit
      refine ⟨l.takeWhile (fun c => c ≠ '@'), b, c, ?_, ?_, hb, hc, ?_, ?_, ?_⟩
      · conv_lhs => rw [← hsplit]
        rw [hbc]
      · simpa [List.isEmpty_iff] using hpre
      · exact hpreall
      · have hall := hbc ▸ hpostall
        simp only [List.all_append, Bool.and_eq_true] at hall
        exact hall.1
      · have hall := hbc ▸ hpostall
        simp only [List.all_append, List.all_cons, Bool.and_eq_true] at hall
        exact hall.2.2
  · rintro ⟨a, b, c, rfl, ha, hb, hc, haall, hball, hcall⟩
    have hane : (a.all fun c => c ≠ '@') = true := by
      rw [List.all_eq_true] at haall ⊢
      intro x hx
      have := haall x hx
      simp only [noSpaceAt, Bool.and_eq_true, Bool.not_eq_true',
        decide_eq_true_eq] at this ⊢
      exact this.2
    have htd := takeWhile_of_all (fun c => c ≠ '@') a '@' (b ++ '.' :: c) hane
    have hd : (a ++ '@' :: (b ++ '.' :: c)).dropWhile (fun c => c ≠ '@') =
        '@' :: (b ++ '.' :: c) := by
      rw [htd.2, List.dropWhile_cons]
      simp
    have htake : (a ++ '@' :: (b ++ '.' :: c)).takeWhile (fun c => c ≠ '@') = a := by
      rw [htd.1, List.takeWhile_cons]
      simp
    have hred : emailMatches (a ++ '@' :: (b ++ '.' :: c)) =
        (!((a ++ '@' :: (b ++ '.' :: c)).takeWhile (fun c => c ≠ '@')).isEmpty &&
          ((a ++ '@' :: (b ++ '.' :: c)).takeWhile (fun c => c ≠ '@')).all noSpaceAt &&
          (b ++ '.' :: c).all noSpaceAt &&
          (((b ++ '.' :: c).drop 1).dropLast.contains '.')) := by
      unfold emailMatches
      rw [hd]
      rfl
    rw [hred, htake]
    simp only [Bool.and_eq_true, Bool.not_eq_true']
    refine ⟨⟨⟨?_, haall⟩, ?_⟩, ?_⟩
    · simpa [List.isEmpty_iff] using ha
    · simp only [List.all_append, List.all_cons, Bool.and_eq_true]
      exact ⟨hball, by decide, hcall⟩
    · exact List.elem_iff.mpr ((dot_strictly_inside _).mpr ⟨b, c, rfl, hb, hc⟩)

/-! ## Claims C3 and C4: Booking validation -/

/-- C3: a Booking saves only when its `eventId` references an existing
Event; with a valid (stored) email and no such Event, the pre-save hook
rejects the save with `Referenced event does not exist`, so no Booking is
persisted.  (The hook's existence check runs after its email check, so
the email hypothesis selects the hook's referential error.) -/
theorem booking_requires_existing_event (events : List Nat) (b : Booking) :
    (∀ b', bookingSave events b = Except.ok b' → b.eventId ∈ events) ∧
    (b.eventId ∉ events → emailMatches (emailStored b.email) = true →
      bookingSave events b = Except.error "Referenced event does not exist") := by
  constructor
  · intro b' h
    unfold bookingSave at h
    by_cases hm : emailMatches (emailStored b.email) = true
    · rw [if_pos hm] at h
      by_cases hc : events.contains b.eventId = true
      · exact List.elem_iff.mp hc
      · rw [if_neg hc] at h; cases h
    · rw [if_neg hm] at h; cases h
  · intro hmem hm
    unfold bookingSave
    rw [if_pos hm, if_neg (fun hc => hmem (List.elem_iff.mp hc))]

/-- Witness for C3: with no existing Events, a Booking with a valid email
is rejected with the referential error. -/
theorem booking_requires_existing_event_witness :
    bookingSave [] { eventId := 5, email := "a@b.co".data } =
      Except.error "Referenced event does not exist" :=
  (booking_requires_existing_event [] { eventId := 5, email := "a@b.co".data }).2
    (by simp) rfl

/-- C4: the stored email is the lower-cased, trimmed raw email, and the
save fails with `Invalid email address` exactly when that stored email
does not match the regex `[^\s@]+`, `@`, `[^\s@]+`, `.`, `[^\s@]+`
(anchored). -/
theorem booking_email_normalized (events : List Nat) (b : Booking) :
    (∀ b', bookingSave events b = Except.ok b' →
      b'.email = jsToLower (jsTrim b.email)) ∧
    (bookingSave events b = Except.error "Invalid email address" ↔
      ¬ EmailRegexMatches (emailStored b.email)) := by
  unfold bookingSave
  by_cases hm : emailMatches (emailStored b.email) = true
  · rw [if_pos hm]
    constructor
    · intro b' h
      by_cases hc : events.contains b.eventId = true
      · rw [if_pos hc] at h
        cases h
        rfl
      · rw [if_neg hc] at h; cases h
    · constructor
      · intro h
        by_cases hc : events.contains b.eventId = true
        · rw [if_pos hc] at h; cases h
        · rw [if_neg hc] at h
          exact absurd (Except.error.inj h) (by decide)
      · intro hn
        exact absurd ((emailMatches_iff _).mp hm) hn
  · rw [if_neg hm]
    constructor
    · intro b' h
      cases h
    · constructor
      · intro _ hmm
        exact hm ((emailMatches_iff _).mpr hmm)
      · intro _
        rfl

/-- Witness for C4: a raw email with spaces and capitals is stored
trimmed and lower-cased. -/
theorem booking_email_normalized_witness :
    ({ eventId := 7, email := "a@b.co".data } : Booking).email =
      jsToLower (jsTrim " A@B.co ".data) :=
  (booking_email_normalized [7] { eventId := 7, email := " A@B.co ".data }).1
    { eventId := 7, email := "a@b.co".data } rfl

/-! ## Inverting a successful Event save -/

/-- Everything a successful run of the Event pre-save hook guarantees:
the stored plain string fields are the trimmed raw values, agenda and
tags are stored unchanged, the slug is regenerated from the (trimmed)
title exactly when the title is modified, every required string field is
non-empty after trimming, agenda and tags are non-empty, a modified
title yields a non-empty slug, and the stored date/time are the
normalized values exactly when modified (the trimmed raw values
otherwise). -/
theorem eventPreSave_ok_inv (parse : List Char → Option Int) (md : Modified)
    (e e' : Event) (h : eventPreSave parse md e = Except.ok e') :
    e'.title = jsTrim e.title ∧
    e'.description = jsTrim e.description ∧
    e'.overview = jsTrim e.overview ∧
    e'.image = jsTrim e.image ∧
    e'.venue = jsTrim e.venue ∧
    e'.location = jsTrim e.location ∧
    e'.mode = jsTrim e.mode ∧
    e'.audience = jsTrim e.audience ∧
    e'.organizer = jsTrim e.organizer ∧
    e'.agenda = e.agenda ∧
    e'.tags = e.tags ∧
    e'.slug = (if md.title then slugify (jsTrim e.title) else e.slug) ∧
    (∀ p ∈ eventFields e, jsTrim p.2 ≠ []) ∧
    e.agenda ≠ [] ∧ e.tags ≠ [] ∧
    (md.title = true → slugify (jsTrim e.title) ≠ []) ∧
    (if md.date then normalizeDate parse (jsTrim e.date) = Except.ok e'.date
      else e'.date = jsTrim e.date) ∧
    (if md.time then normalizeTime (jsTrim e.time) = Except.ok e'.time
      else e'.time = jsTrim e.time) := by
  unfold eventPreSave at h
  cases hf : firstEmptyField e with
  | some p => rw [hf] at h; cases h
  | none =>
  rw [hf] at h
  by_cases hag : e.agenda.isEmpty = true
  · rw [if_pos hag] at h; cases h
  rw [if_neg hag] at h
  by_cases htg : e.tags.isEmpty = true
  · rw [if_pos htg] at h; cases h
  rw [if_neg htg] at h
  by_cases hsl : (md.title && (slugify (jsTrim e.title)).isEmpty) = true
  · rw [if_pos hsl] at h; cases h
  rw [if_neg hsl] at h
  cases hD : (if md.date = true then normalizeDate parse (jsTrim e.date)
      else Except.ok (jsTrim e.date)) with
  | error msg => rw [hD] at h; cases h
  | ok dateV =>
  rw [hD] at h
  cases hT : (if md.time = true then normalizeTime (jsTrim e.time)
      else Except.ok (jsTrim e.time)) with
  | error msg => rw [hT] at h; cases h
  | ok timeV =>
  rw [hT] at h
  cases h
  have hfields : ∀ p ∈ eventFields e, jsTrim p.2 ≠ [] := by
    intro p hp
    have := List.find?_eq_none.mp hf p hp
    simpa [List.isEmpty_iff] using this
  refine ⟨rfl, rfl, rfl, rfl, rfl, rfl, rfl, rfl, rfl, rfl, rfl, rfl, hfields,
    by simpa [List.isEmpty_iff] using hag,
    by simpa [List.isEmpty_iff] using htg, ?_, ?_, ?_⟩
  · intro hmd hempty
    exact hsl (by simp [hmd, hempty, List.isEmpty_iff])
  · cases hmd : md.date with
    | true => rw [hmd] at hD; simpa using hD
    | false => rw [hmd] at hD; simpa using hD.symm
  · cases hmt : md.time with
    | true => rw [hmt] at hT; simpa using hT
    | false => rw [hmt] at hT; simpa using hT.symm

/-- The hook fails with the message naming the first trim-empty required
string field. -/
theorem eventPreSave_error_of_empty (parse : List Char → Option Int)
    (md : Modified) (e : Event) (name : String) (raw : List Char)
    (h : firstEmptyField e = some (name, raw)) :
    eventPreSave parse md e = Except.error (reqMsg name) := by
  unfold eventPreSave
  rw [h]

/-! ## Digit and shape lemmas -/

theorem digitChar_toNat (k : Nat) (hk : k < 10) :
    (digitChar k).toNat = 48 + k := by
  interval_cases k <;> decide

theorem isAsciiDigit_digitChar (k : Nat) (hk : k < 10) :
    isAsciiDigit (digitChar k) = true := by
  interval_cases k <;> decide

theorem dval_digitChar (k : Nat) (hk : k < 10) : dval (digitChar k) = k := by
  interval_cases k <;> decide

/-- The literal shape `YYYY-MM-DD`: ten characters, decimal digits with
dashes at positions 4 and 7. -/
def isYYYYMMDD : List Char → Bool
  | [y1, y2, y3, y4, '-', m1, m2, '-', d1, d2] =>
    isAsciiDigit y1 && isAsciiDigit y2 && isAsciiDigit y3 && isAsciiDigit y4 &&
    isAsciiDigit m1 && isAsciiDigit m2 && isAsciiDigit d1 && isAsciiDigit d2
  | _ => false

/-- The ECMAScript expanded-year date shape: a sign, six digits, then
`-MM-DD`. -/
def isExpandedDate : List Char → Bool
  | [s, y1, y2, y3, y4, y5, y6, '-', m1, m2, '-', d1, d2] =>
    (s = '+' || s = '-') &&
    isAsciiDigit y1 && isAsciiDigit y2 && isAsciiDigit y3 &&
    isAsciiDigit y4 && isAsciiDigit y5 && isAsciiDigit y6 &&
    isAsciiDigit m1 && isAsciiDigit m2 && isAsciiDigit d1 && isAsciiDigit d2
  | _ => false

/-- The normalized 24-hour clock shape `HH:mm`: two digit pairs around a
colon whose values are a valid hour (0-23) and minute (0-59). -/
def isHHmm : List Char → Bool
  | [a, b, ':', c, d] =>
    isAsciiDigit a && isAsciiDigit b && isAsciiDigit c && isAsciiDigit d &&
    (10 * dval a + dval b ≤ 23) && (10 * dval c + dval d ≤ 59)
  | _ => false

theorem isYYYYMMDD_of_digits (a b c d e f g h : Char)
    (h1 : isAsciiDigit a = true) (h2 : isAsciiDigit b = true)
    (h3 : isAsciiDigit c = true) (h4 : isAsciiDigit d = true)
    (h5 : isAsciiDigit e = true) (h6 : isAsciiDigit f = true)
    (h7 : isAsciiDigit g = true) (h8 : isAsciiDigit h = true) :
    isYYYYMMDD [a, b, c, d, '-', e, f, '-', g, h] = true := by
  show (isAsciiDigit a && isAsciiDigit b && isAsciiDigit c && isAsciiDigit d &&
    isAsciiDigit e && isAsciiDigit f && isAsciiDigit g && isAsciiDigit h) = true
  simp [h1, h2, h3, h4, h5, h6, h7, h8]

theorem isExpandedDate_of_digits (s a b c d e f g h i j : Char)
    (hs : s = '+' ∨ s = '-')
    (h1 : isAsciiDigit a = true) (h2 : isAsciiDigit b = true)
    (h3 : isAsciiDigit c = true) (h4 : isAsciiDigit d = true)
    (h5 : isAsciiDigit e = true) (h6 : isAsciiDigit f = true)
    (h7 : isAsciiDigit g = true) (h8 : isAsciiDigit h = true)
    (h9 : isAsciiDigit i = true) (h10 : isAsciiDigit j = true) :
    isExpandedDate [s, a, b, c, d, e, f, '-', g, h, '-', i, j] = true := by
  show ((s = '+' || s = '-') &&
    isAsciiDigit a && isAsciiDigit b && isAsciiDigit c &&
    isAsciiDigit d && isAsciiDigit e && isAsciiDigit f &&
    isAsciiDigit g && isAsciiDigit h && isAsciiDigit i && isAsciiDigit j) = true
  rcases hs with rfl | rfl <;>
    simp [h1, h2, h3, h4, h5, h6, h7, h8, h9, h10]

/-! ## Bounds of the civil-date computation -/

theorem doeOfDays_le (days : Int) : doeOfDays days ≤ 146096 := by
  unfold doeOfDays
  have h1 : 0 ≤ (days + 719468) % 146097 :=
    Int.emod_nonneg _ (by decide)
  have h2 : (days + 719468) % 146097 < 146097 :=
    Int.emod_lt_of_pos _ (by decide)
  omega

theorem yoeOfDoe_le (doe : Nat) (h : doe ≤ 146096) : yoeOfDoe doe ≤ 399 := by
  unfold yoeOfDoe
  omega

/-- A coarse day-of-year bound, enough to cap the rendered month and day
at two digits. -/
theorem doyOfDoe_le (doe : Nat) (h : doe ≤ 146096) : doyOfDoe doe ≤ 672 := by
  unfold doyOfDoe yoeOfDoe
  omega

/-- The month lies in 1-12 and the day in 1-31, for every day number. -/
theorem civilFromDays_md_bounds (days : Int) :
    1 ≤ (civilFromDays days).2.1 ∧ (civilFromDays days).2.1 ≤ 12 ∧
    1 ≤ (civilFromDays days).2.2 ∧ (civilFromDays days).2.2 ≤ 31 := by
  have hdoe := doeOfDays_le days
  have hdoy := doyOfDoe_le (doeOfDays days) hdoe
  simp only [civilFromDays]
  refine ⟨?_, ?_, ?_, ?_⟩
  · split <;> (unfold mpOfDoe at *; omega)
  · split <;> (unfold mpOfDoe at *; omega)
  · unfold mpOfDoe; omega
  · unfold mpOfDoe; omega

/-- Within the ECMAScript time value range the year has at most six
digits. -/
theorem civilFromDays_year_bound (t : Int) (h : t.natAbs ≤ maxTimeValue) :
    (civilFromDays (t / msPerDay)).1.natAbs ≤ 999999 := by
  have hdoe := doeOfDays_le (t / msPerDay)
  have hyoe := yoeOfDoe_le (doeOfDays (t / msPerDay)) hdoe
  simp only [civilFromDays, msPerDay, maxTimeValue] at *
  split <;> omega

/-- The date part of `toISOString` is `YYYY-MM-DD` for years 0-9999 and
the expanded sign-and-six-digit-year shape otherwise. -/
theorem isoDateOfTimestamp_shape (t : Int) (ht : t.natAbs ≤ maxTimeValue) :
    ((0 ≤ (civilFromDays (t / msPerDay)).1 ∧
        (civilFromDays (t / msPerDay)).1 ≤ 9999) →
      isYYYYMMDD (isoDateOfTimestamp t) = true) ∧
    (isYYYYMMDD (isoDateOfTimestamp t) = true ∨
      isExpandedDate (isoDateOfTimestamp t) = true) := by
  have hmd := civilFromDays_md_bounds (t / msPerDay)
  have hy := civilFromDays_year_bound t ht
  unfold isoDateOfTimestamp
  rcases hceq : civilFromDays (t / msPerDay) with ⟨y, m, d⟩
  rw [hceq] at hmd hy
  simp only [hceq]
  obtain ⟨hm1, hm2, hd1, hd2⟩ := hmd
  simp only at hm1 hm2 hd1 hd2 hy
  by_cases hyr : 0 ≤ y ∧ y ≤ 9999
  · rw [if_pos hyr]
    have hsh : isYYYYMMDD (pad4 y.toNat ++ '-' :: pad2 m ++ '-' :: pad2 d)
        = true := by
      simp only [pad4, pad2, List.cons_append, List.nil_append]
      exact isYYYYMMDD_of_digits _ _ _ _ _ _ _ _
        (isAsciiDigit_digitChar _ (by omega))
        (isAsciiDigit_digitChar _ (by omega))
        (isAsciiDigit_digitChar _ (by omega))
        (isAsciiDigit_digitChar _ (by omega))
        (isAsciiDigit_digitChar _ (by omega))
        (isAsciiDigit_digitChar _ (by omega))
        (isAsciiDigit_digitChar _ (by omega))
        (isAsciiDigit_digitChar _ (by omega))
    exact ⟨fun _ => hsh, Or.inl hsh⟩
  · rw [if_neg hyr]
    have hsh : isExpandedDate
        (((if y < 0 then ['-'] else ['+']) ++ pad6 y.natAbs) ++
          '-' :: pad2 m ++ '-' :: pad2 d) = true := by
      have hsign : (if y < 0 then ['-'] else ['+']) = [if y < 0 then '-' else '+'] := by
        split <;> rfl
      rw [hsign]
      simp only [pad6, pad2, List.cons_append, List.nil_append]
      exact isExpandedDate_of_digits _ _ _ _ _ _ _ _ _ _ _
        (by split <;> simp)
        (isAsciiDigit_digitChar _ (by omega))
        (isAsciiDigit_digitChar _ (by omega))
        (isAsciiDigit_digitChar _ (by omega))
        (isAsciiDigit_digitChar _ (by omega))
        (isAsciiDigit_digitChar _ (by omega))
        (isAsciiDigit_digitChar _ (by omega))
        (isAsciiDigit_digitChar _ (by omega))
        (isAsciiDigit_digitChar _ (by omega))
        (isAsciiDigit_digitChar _ (by omega))
        (isAsciiDigit_digitChar _ (by omega))
    exact ⟨fun hc => absurd hc hyr, Or.inr hsh⟩

/-- A successfully normalized time has the `HH:mm` shape with in-range
hour and minute values. -/
theorem normalizeTime_shape (v s : List Char)
    (h : normalizeTime v = Except.ok s) : isHHmm s = true := by
  unfold normalizeTime at h
  cases hm : timeRegexMatch (jsTrim v) with
  | none => rw [hm] at h; cases h
  | some hm2 =>
    obtain ⟨hours, minutes⟩ := hm2
    rw [hm] at h
    simp only at h
    by_cases hb : (23 < hours || 59 < minutes) = true
    · rw [if_pos hb] at h; cases h
    · rw [if_neg hb] at h
      cases h
      have hbb : hours ≤ 23 ∧ minutes ≤ 59 := by
        simp only [Bool.or_eq_true, decide_eq_true_eq, not_or] at hb
        omega
      simp only [pad2, List.cons_append, List.nil_append]
      show (isAsciiDigit (digitChar (hours / 10)) &&
        isAsciiDigit (digitChar (hours % 10)) &&
        isAsciiDigit (digitChar (minutes / 10)) &&
        isAsciiDigit (digitChar (minutes % 10)) &&
        (10 * dval (digitChar (hours / 10)) + dval (digitChar (hours % 10)) ≤ 23) &&
        (10 * dval (digitChar (minutes / 10)) + dval (digitChar (minutes % 10)) ≤ 59)) = true
      rw [isAsciiDigit_digitChar (hours / 10) (by omega),
        isAsciiDigit_digitChar (hours % 10) (by omega),
        isAsciiDigit_digitChar (minutes / 10) (by omega),
        isAsciiDigit_digitChar (minutes % 10) (by omega),
        dval_digitChar (hours / 10) (by omega),
        dval_digitChar (hours % 10) (by omega),
        dval_digitChar (minutes / 10) (by omega),
        dval_digitChar (minutes % 10) (by omega)]
      simp only [Bool.true_and, Bool.and_eq_true, decide_eq_true_eq]
      constructor <;> omega

/-! ## Trimming is idempotent -/

theorem dropWhile_dropWhile (p : Char → Bool) (l : List Char) :
    (l.dropWhile p).dropWhile p = l.dropWhile p := by
  cases hd : l.dropWhile p with
  | nil => rfl
  | cons z post =>
    rw [List.dropWhile_cons, dropWhile_head_false p l z post hd]
    simp

theorem dropWhile_eq_self_of_head (p : Char → Bool) (l : List Char)
    (h : ∀ z, l.head? = some z → p z = false) : l.dropWhile p = l := by
  cases l with
  | nil => rfl
  | cons y ys =>
    rw [List.dropWhile_cons, h y rfl]
    simp

theorem getLast?_dropWhile (p : Char → Bool) (l : List Char)
    (h : l.dropWhile p ≠ []) : (l.dropWhile p).getLast? = l.getLast? := by
  induction l with
  | nil => simp at h
  | cons y ys ih =>
    rw [List.dropWhile_cons] at h ⊢
    by_cases hp : p y = true
    · rw [if_pos hp] at h ⊢
      cases hys : ys with
      | nil =>
        rw [hys] at h
        simp at h
      | cons a as =>
        rw [hys] at ih h
        rw [ih h, List.getLast?_cons_cons]
    · rw [if_neg hp]

theorem jsTrim_idem (l : List Char) : jsTrim (jsTrim l) = jsTrim l := by
  cases hA : l.dropWhile isJsSpace with
  | nil =>
    unfold jsTrim
    rw [hA]
    rfl
  | cons a pre =>
    have hafalse : isJsSpace a = false := dropWhile_head_false _ _ _ _ hA
    unfold jsTrim
    rw [hA]
    have hXne : (a :: pre).reverse.dropWhile isJsSpace ≠ [] := by
      intro hXe
      have hall := (List.dropWhile_eq_nil_iff).mp hXe
      have := hall a (by simp)
      rw [hafalse] at this
      cases this
    have hgl : ((a :: pre).reverse.dropWhile isJsSpace).getLast? = some a := by
      rw [getLast?_dropWhile isJsSpace _ hXne, List.getLast?_reverse]
      rfl
    have h1 : ((a :: pre).reverse.dropWhile isJsSpace).reverse.dropWhile isJsSpace
        = ((a :: pre).reverse.dropWhile isJsSpace).reverse := by
      apply dropWhile_eq_self_of_head
      intro z hz
      rw [List.head?_reverse, hgl] at hz
      cases hz
      exact hafalse
    rw [h1, List.reverse_reverse, dropWhile_dropWhile]

/-! ## The concrete parser stays in the time value range -/

theorem timeValueOfCivil_range (y : Int) (m d : Nat) (t : Int)
    (h : timeValueOfCivil y m d = some t) : t.natAbs ≤ maxTimeValue := by
  unfold timeValueOfCivil at h
  split at h
  · simp only at h
    split at h
    · cases h
      assumption
    · cases h
  · cases h

theorem parseEcmaDateOnly_range (l : List Char) (t : Int)
    (h : parseEcmaDateOnly l = some t) : t.natAbs ≤ maxTimeValue := by
  unfold parseEcmaDateOnly at h
  repeat' split at h
  all_goals first
    | cases h
    | exact timeValueOfCivil_range _ _ _ _ h

/-! ## Claim C1: slug derivation -/

/-- C1: whenever the title is set or modified at save time, a successful
save stores exactly `slugify` of the (trimmed) title, which is non-empty;
an empty derived slug makes the save fail; and any two saved events with
the same title receive the same slug (the derivation is a pure function
of the title). -/
theorem event_slug_derived (parse parse2 : List Char → Option Int)
    (md md2 : Modified) (e e2 : Event)
    (hmd : md.title = true) (hmd2 : md2.title = true) :
    (∀ e', eventPreSave parse md e = Except.ok e' →
      e'.slug = slugify (jsTrim e.title) ∧ e'.slug ≠ []) ∧
    (slugify (jsTrim e.title) = [] →
      ∀ e', eventPreSave parse md e ≠ Except.ok e') ∧
    (e2.title = e.title →
      ∀ e' e2', eventPreSave parse md e = Except.ok e' →
        eventPreSave parse2 md2 e2 = Except.ok e2' → e2'.slug = e'.slug) := by
  have main : ∀ (p : List Char → Option Int) (m : Modified), m.title = true →
      ∀ e0 e0', eventPreSave p m e0 = Except.ok e0' →
        e0'.slug = slugify (jsTrim e0.title) ∧ e0'.slug ≠ [] := by
    intro p m hm e0 e0' h
    obtain ⟨-, -, -, -, -, -, -, -, -, -, -, hslug, -, -, -, hne, -, -⟩ :=
      eventPreSave_ok_inv p m e0 e0' h
    rw [hm] at hslug
    simp only [if_true] at hslug
    exact ⟨hslug, by rw [hslug]; exact hne hm⟩
  refine ⟨main parse md hmd e, ?_, ?_⟩
  · intro hempty e' h
    exact (main parse md hmd e e' h).2 ((main parse md hmd e e' h).1 ▸ hempty)
  · intro htitle e' e2' h h2
    rw [(main parse md hmd e e' h).1, (main parse2 md2 hmd2 e2 e2' h2).1, htitle]

/-- Witness for C1 at `evOk`: the stored slug is `dev-summit`. -/
theorem event_slug_derived_witness :
    evOkStored.slug = slugify (jsTrim evOk.title) ∧ evOkStored.slug ≠ [] :=
  (event_slug_derived parseEcmaDateOnly parseEcmaDateOnly allModified
    allModified evOk evOk rfl rfl).1 evOkStored rfl

/-! ## Claim C2: date/time normalization -/

theorem isAsciiDigit_not_space (c : Char) (h : isAsciiDigit c = true) :
    isJsSpace c = false := by
  simp only [isAsciiDigit, Bool.and_eq_true, decide_eq_true_eq] at h
  simp only [isJsSpace, Bool.or_eq_true, Bool.and_eq_true, decide_eq_true_eq,
    Bool.or_eq_false_iff, Bool.and_eq_false_iff, decide_eq_false_iff_not]
  omega

/-- Trimming fixes any list whose first and last characters are not white
space. -/
theorem jsTrim_eq_self_of_ends (l : List Char)
    (hh : ∀ z, l.head? = some z → isJsSpace z = false)
    (hl : ∀ z, l.getLast? = some z → isJsSpace z = false) : jsTrim l = l := by
  unfold jsTrim
  rw [dropWhile_eq_self_of_head _ _ hh]
  rw [dropWhile_eq_self_of_head _ _
    (fun z hz => hl z (by rwa [List.head?_reverse] at hz))]
  exact List.reverse_reverse l

/-- A normalized `HH:mm` string is already trimmed. -/
theorem isHHmm_trim_fix (s : List Char) (h : isHHmm s = true) :
    jsTrim s = s := by
  unfold isHHmm at h
  split at h
  · simp only [Bool.and_eq_true] at h
    apply jsTrim_eq_self_of_ends
    · intro z hz
      cases hz
      exact isAsciiDigit_not_space _ h.1.1.1.1.1
    · intro z hz
      have : z = _ := (Option.some.inj hz).symm
      cases this
      exact isAsciiDigit_not_space _ h.1.1.2
  · cases h

/-- A normalized ISO or expanded date string is already trimmed. -/
theorem isoShape_trim_fix (s : List Char)
    (h : isYYYYMMDD s = true ∨ isExpandedDate s = true) : jsTrim s = s := by
  rcases h with h | h
  · unfold isYYYYMMDD at h
    split at h
    · simp only [Bool.and_eq_true] at h
      apply jsTrim_eq_self_of_ends
      · intro z hz
        cases hz
        exact isAsciiDigit_not_space _ h.1.1.1.1.1.1.1
      · intro z hz
        have : z = _ := (Option.some.inj hz).symm
        cases this
        exact isAsciiDigit_not_space _ h.2
    · cases h
  · unfold isExpandedDate at h
    split at h
    · simp only [Bool.and_eq_true] at h
      apply jsTrim_eq_self_of_ends
      · intro z hz
        cases hz
        have hs := h.1.1.1.1.1.1.1.1.1.1
        rcases (by simpa using hs : _ = '+' ∨ _ = '-') with rfl | rfl <;> rfl
      · intro z hz
        have : z = _ := (Option.some.inj hz).symm
        cases this
        exact isAsciiDigit_not_space _ h.2
    · cases h

/-- C2 (amended): for every successful save, a modified time is stored in
the normalized `HH:mm` shape (hours 00-23, minutes 00-59) and a modified
date is stored as the ISO date of the parsed timestamp — in `YYYY-MM-DD`
form whenever the parsed year lies in 0-9999, and otherwise in the
ECMAScript expanded form, a sign and a six-digit year; an unmodified date
or time is stored unchanged (in particular the normalized shapes
established when the fields were last modified persist across saves); an
unparseable date or a time not matching the time regex makes the save
fail.  `parse` is any model of the host `Date` parser returning time
values in the ECMAScript range. -/
theorem event_date_time_normalized (parse : List Char → Option Int)
    (hrange : ∀ s t, parse s = some t → t.natAbs ≤ maxTimeValue)
    (md : Modified) (e e' : Event) :
    (eventPreSave parse md e = Except.ok e' →
      (md.time = true → isHHmm e'.time = true) ∧
      (md.time = false → e'.time = jsTrim e.time ∧
        (isHHmm e.time = true → e'.time = e.time)) ∧
      (md.date = true →
        ∃ t, parse (jsTrim e.date) = some t ∧
          e'.date = isoDateOfTimestamp t ∧
          (isYYYYMMDD e'.date = true ∨ isExpandedDate e'.date = true) ∧
          ((0 ≤ (civilFromDays (t / msPerDay)).1 ∧
              (civilFromDays (t / msPerDay)).1 ≤ 9999) →
            isYYYYMMDD e'.date = true)) ∧
      (md.date = false → e'.date = jsTrim e.date ∧
        ((isYYYYMMDD e.date = true ∨ isExpandedDate e.date = true) →
          e'.date = e.date))) ∧
    (md.date = true → parse (jsTrim e.date) = none →
      eventPreSave parse md e ≠ Except.ok e') ∧
    (md.time = true → timeRegexMatch (jsTrim e.time) = none →
      eventPreSave parse md e ≠ Except.ok e') := by
  refine ⟨?_, ?_, ?_⟩
  · intro h
    obtain ⟨-, -, -, -, -, -, -, -, -, -, -, -, -, -, -, -, hdate, htime⟩ :=
      eventPreSave_ok_inv parse md e e' h
    refine ⟨?_, ?_, ?_, ?_⟩
    · intro hmt
      rw [hmt] at htime
      simp only [if_true] at htime
      exact normalizeTime_shape _ _ htime
    · intro hmt
      rw [hmt] at htime
      simp only [Bool.false_eq_true, if_false] at htime
      exact ⟨htime, fun hsh => by rw [htime, isHHmm_trim_fix _ hsh]⟩
    · intro hmd
      rw [hmd] at hdate
      simp only [if_true] at hdate
      unfold normalizeDate at hdate
      cases hp : parse (jsTrim e.date) with
      | none => rw [hp] at hdate; cases hdate
      | some t =>
        rw [hp] at hdate
        have hdd : e'.date = isoDateOfTimestamp t := (Except.ok.inj hdate).symm
        have hshape := isoDateOfTimestamp_shape t (hrange _ t hp)
        exact ⟨t, rfl, hdd, by rw [hdd]; exact hshape.2,
          fun hy => by rw [hdd]; exact hshape.1 hy⟩
    · intro hmd
      rw [hmd] at hdate
      simp only [Bool.false_eq_true, if_false] at hdate
      exact ⟨hdate, fun hsh => by rw [hdate, isoShape_trim_fix _ hsh]⟩
  · intro hmd hp h
    obtain ⟨-, -, -, -, -, -, -, -, -, -, -, -, -, -, -, -, hdate, -⟩ :=
      eventPreSave_ok_inv parse md e e' h
    rw [hmd] at hdate
    simp only [if_true] at hdate
    unfold normalizeDate at hdate
    rw [hp] at hdate
    cases hdate
  · intro hmt ht h
    obtain ⟨-, -, -, -, -, -, -, -, -, -, -, -, -, -, -, -, -, htime⟩ :=
      eventPreSave_ok_inv parse md e e' h
    rw [hmt] at htime
    simp only [if_true] at htime
    unfold normalizeTime at htime
    rw [jsTrim_idem, ht] at htime
    cases htime

/-- Witness for C2 at `evOk` (a creation save, every path modified): the
stored time `09:30` has the `HH:mm` shape and the stored date
`2024-03-05` is the ISO date of the parsed timestamp. -/
theorem event_date_time_normalized_witness :
    isHHmm evOkStored.time = true ∧
    ∃ t, parseEcmaDateOnly (jsTrim evOk.date) = some t ∧
      evOkStored.date = isoDateOfTimestamp t ∧
      (isYYYYMMDD evOkStored.date = true ∨
        isExpandedDate evOkStored.date = true) ∧
      ((0 ≤ (civilFromDays (t / msPerDay)).1 ∧
          (civilFromDays (t / msPerDay)).1 ≤ 9999) →
        isYYYYMMDD evOkStored.date = true) := by
  have h := (event_date_time_normalized parseEcmaDateOnly
    (fun s t hp => parseEcmaDateOnly_range s t hp) allModified
    evOk evOkStored).1 rfl
  exact ⟨h.1 rfl, h.2.2.1 rfl⟩

/-- An event whose date string carries an ECMAScript expanded year
(year 10000). -/
def evFarFuture : Event := { evOk with date := "+010000-01-01".data }

/-- Counterexample to C2 as stated: this event saves successfully, yet
the stored date `+010000-01-01` is not in `YYYY-MM-DD` form — the host
renders years outside 0-9999 in the expanded six-digit form. -/
theorem event_date_not_YYYYMMDD :
    (eventPreSave parseEcmaDateOnly allModified evFarFuture).map Event.date =
      Except.ok "+010000-01-01".data ∧
    isYYYYMMDD "+010000-01-01".data = false := ⟨rfl, rfl⟩

/-! ## Claim C5: agenda -/

/-- C5: a successful save stores the agenda exactly as given (order and
items preserved) and the agenda is non-empty; an empty agenda makes the
save fail. -/
theorem event_agenda_nonempty (parse : List Char → Option Int)
    (md : Modified) (e : Event) :
    (∀ e', eventPreSave parse md e = Except.ok e' →
      e'.agenda = e.agenda ∧ e.agenda ≠ []) ∧
    (e.agenda = [] → ∀ e', eventPreSave parse md e ≠ Except.ok e') := by
  have main : ∀ e', eventPreSave parse md e = Except.ok e' →
      e'.agenda = e.agenda ∧ e.agenda ≠ [] := by
    intro e' h
    obtain ⟨-, -, -, -, -, -, -, -, -, hag, -, -, -, hne, -, -, -, -⟩ :=
      eventPreSave_ok_inv parse md e e' h
    exact ⟨hag, hne⟩
  exact ⟨main, fun hempty e' h => (main e' h).2 hempty⟩

/-- Witness for C5 at `evOk`: the two agenda items are stored in order. -/
theorem event_agenda_nonempty_witness :
    evOkStored.agenda = evOk.agenda ∧ evOk.agenda ≠ [] :=
  (event_agenda_nonempty parseEcmaDateOnly allModified evOk).1 evOkStored rfl

/-! ## Claim C6: tags -/

/-- C6 (amended): a successful save stores the tags list exactly as
given and it is non-empty; an empty tags list makes the save fail.  The
code does not deduplicate, so the stored list may contain duplicates. -/
theorem event_tags_nonempty (parse : List Char → Option Int)
    (md : Modified) (e : Event) :
    (∀ e', eventPreSave parse md e = Except.ok e' →
      e'.tags = e.tags ∧ e.tags ≠ []) ∧
    (e.tags = [] → ∀ e', eventPreSave parse md e ≠ Except.ok e') := by
  have main : ∀ e', eventPreSave parse md e = Except.ok e' →
      e'.tags = e.tags ∧ e.tags ≠ [] := by
    intro e' h
    obtain ⟨-, -, -, -, -, -, -, -, -, -, htg, -, -, -, hne, -, -, -⟩ :=
      eventPreSave_ok_inv parse md e e' h
    exact ⟨htg, hne⟩
  exact ⟨main, fun hempty e' h => (main e' h).2 hempty⟩

/-- Witness for C6 at `evOk`. -/
theorem event_tags_nonempty_witness :
    evOkStored.tags = evOk.tags ∧ evOk.tags ≠ [] :=
  (event_tags_nonempty parseEcmaDateOnly allModified evOk).1 evOkStored rfl

/-- An event with a duplicated tag. -/
def evDupTags : Event := { evOk with tags := ["dev".data, "dev".data] }

/-- Counterexample to C6 as stated: an event whose tags list holds the
same string twice saves successfully and the duplicate is stored — the
persisted tags collection is a list, not a duplicate-free set. -/
theorem event_tags_duplicates :
    (eventPreSave parseEcmaDateOnly allModified evDupTags).map Event.tags =
      Except.ok ["dev".data, "dev".data] ∧
    ¬ (["dev".data, "dev".data] : List (List Char)).Nodup := by
  exact ⟨rfl, by decide⟩

/-! ## Claim C10: required string fields -/

/-- C10 (amended): on a successful save the nine plain required string
fields are stored equal to their trimmed raw values; all eleven required
string fields (date and time included) are non-empty after trimming;
date and time are stored equal to their trimmed values exactly when not
modified (when modified they are further normalized); and when some
required string field is empty after trimming the save fails with the
error naming the first such field. -/
theorem event_required_fields (parse : List Char → Option Int)
    (md : Modified) (e : Event) :
    (∀ e', eventPreSave parse md e = Except.ok e' →
      (e'.title = jsTrim e.title ∧ e'.description = jsTrim e.description ∧
       e'.overview = jsTrim e.overview ∧ e'.image = jsTrim e.image ∧
       e'.venue = jsTrim e.venue ∧ e'.location = jsTrim e.location ∧
       e'.mode = jsTrim e.mode ∧ e'.audience = jsTrim e.audience ∧
       e'.organizer = jsTrim e.organizer) ∧
      (∀ p ∈ eventFields e, jsTrim p.2 ≠ []) ∧
      (md.date = false → e'.date = jsTrim e.date) ∧
      (md.time = false → e'.time = jsTrim e.time)) ∧
    (∀ name raw, firstEmptyField e = some (name, raw) →
      eventPreSave parse md e = Except.error (reqMsg name) ∧ jsTrim raw = []) ∧
    ((∃ p ∈ eventFields e, jsTrim p.2 = []) →
      ∃ name raw, firstEmptyField e = some (name, raw) ∧
        eventPreSave parse md e = Except.error (reqMsg name)) := by
  refine ⟨?_, ?_, ?_⟩
  · intro e' h
    obtain ⟨h1, h2, h3, h4, h5, h6, h7, h8, h9, -, -, -, hfields, -, -, -,
      hdate, htime⟩ := eventPreSave_ok_inv parse md e e' h
    refine ⟨⟨h1, h2, h3, h4, h5, h6, h7, h8, h9⟩, hfields, ?_, ?_⟩
    · intro hmd
      rw [hmd] at hdate
      simpa using hdate
    · intro hmt
      rw [hmt] at htime
      simpa using htime
  · intro name raw hfind
    refine ⟨eventPreSave_error_of_empty parse md e name raw hfind, ?_⟩
    have := List.find?_some hfind
    simpa [List.isEmpty_iff] using this
  · intro ⟨p, hp, hpe⟩
    have hsome : (firstEmptyField e).isSome := by
      rw [firstEmptyField, List.find?_isSome]
      exact ⟨p, hp, by simp [List.isEmpty_iff, hpe]⟩
    obtain ⟨q, hq⟩ := Option.isSome_iff_exists.mp hsome
    exact ⟨q.1, q.2, by rw [← hq],
      eventPreSave_error_of_empty parse md e q.1 q.2 (by rw [← hq])⟩

/-- Witness for C10 at `evOk`: the stored description is the trimmed raw
description and every required field of `evOk` is non-empty after
trimming. -/
theorem event_required_fields_witness :
    evOkStored.description = jsTrim evOk.description ∧
    (∀ p ∈ eventFields evOk, jsTrim p.2 ≠ []) :=
  ⟨((event_required_fields parseEcmaDateOnly allModified evOk).1
      evOkStored rfl).1.2.1,
   ((event_required_fields parseEcmaDateOnly allModified evOk).1
      evOkStored rfl).2.1⟩

/-- Counterexample to C10 as stated: `evOk` saves successfully but its
stored time `09:30` differs from the trimmed raw time `9:30` — modified
date/time fields are normalized beyond trimming. -/
theorem event_time_not_trimmed :
    (eventPreSave parseEcmaDateOnly allModified evOk).map Event.time =
      Except.ok "09:30".data ∧
    jsTrim "9:30".data ≠ "09:30".data := by
  exact ⟨rfl, by decide⟩

/-! ## Claim C9: shape and idempotence of slugify -/

/-- No two adjacent characters are both dashes. -/
def noDoubleDash : List Char → Bool
  | [] => true
  | [_] => true
  | a :: b :: rest => !(a = '-' && b = '-') && noDoubleDash (b :: rest)

/-- The first character, if any, is not a dash. -/
def headNotDash (l : List Char) : Bool := l.head? ≠ some '-'

/-- The last character, if any, is not a dash. -/
def lastNotDash (l : List Char) : Bool := l.getLast? ≠ some '-'

theorem noDoubleDash_cons (x : Char) (xs : List Char)
    (h : noDoubleDash (x :: xs) = true) : noDoubleDash xs = true := by
  cases xs with
  | nil => rfl
  | cons y r =>
    rw [noDoubleDash, Bool.and_eq_true] at h
    exact h.2

theorem noDoubleDash_dash_cons (xs : List Char)
    (h : noDoubleDash ('-' :: xs) = true) : headNotDash xs = true := by
  cases xs with
  | nil => rfl
  | cons y r =>
    rw [noDoubleDash, Bool.and_eq_true] at h
    have h1 := h.1
    simp at h1
    simp [headNotDash, List.head?, h1]

theorem noDoubleDash_cons_of (x : Char) (xs : List Char)
    (hx : x = '-' → headNotDash xs = true) (hxs : noDoubleDash xs = true) :
    noDoubleDash (x :: xs) = true := by
  cases xs with
  | nil => rfl
  | cons y r =>
    rw [noDoubleDash, Bool.and_eq_true]
    refine ⟨?_, hxs⟩
    by_cases hxd : x = '-'
    · have hy := hx hxd
      simp only [headNotDash, List.head?, ne_eq, decide_eq_true_eq] at hy
      have : y ≠ '-' := by
        intro hyd
        exact hy (by rw [hyd])
      simp [hxd, this]
    · simp [hxd]

/-- Every character of the dash-collapsed list is a dash or came from the
input. -/
theorem mem_collapseDashAux (l : List Char) :
    ∀ (b : Bool) (c : Char), c ∈ collapseDashAux b l → c = '-' ∨ c ∈ l := by
  induction l with
  | nil => intro b c h; cases h
  | cons x xs ih =>
    intro b c h
    rw [collapseDashAux] at h
    by_cases hx : x = '-'
    · rw [if_pos hx] at h
      rw [List.mem_append] at h
      rcases h with h | h
      · left
        cases b
        · simpa using h
        · simp at h
      · rcases ih true c h with h | h
        · exact Or.inl h
        · exact Or.inr (List.mem_cons_of_mem _ h)
    · rw [if_neg hx] at h
      rcases List.mem_cons.mp h with rfl | h
      · exact Or.inr (List.mem_cons_self _ _)
      · rcases ih false c h with h | h
        · exact Or.inl h
        · exact Or.inr (List.mem_cons_of_mem _ h)

/-- Dash collapsing yields no adjacent dashes, and in the just-saw-a-dash
state its output never starts with a dash. -/
theorem collapseDashAux_spec (l : List Char) :
    (∀ b, noDoubleDash (collapseDashAux b l) = true) ∧
    headNotDash (collapseDashAux true l) = true := by
  induction l with
  | nil => exact ⟨fun b => rfl, rfl⟩
  | cons x xs ih =>
    constructor
    · intro b
      rw [collapseDashAux]
      by_cases hx : x = '-'
      · rw [if_pos hx]
        cases b with
        | true =>
          show noDoubleDash (collapseDashAux true xs) = true
          exact ih.1 true
        | false =>
          show noDoubleDash ('-' :: collapseDashAux true xs) = true
          exact noDoubleDash_cons_of '-' _ (fun _ => ih.2) (ih.1 true)
      · rw [if_neg hx]
        exact noDoubleDash_cons_of x _ (fun hxd => absurd hxd hx) (ih.1 false)
    · rw [collapseDashAux]
      by_cases hx : x = '-'
      · rw [if_pos hx]
        simpa using ih.2
      · rw [if_neg hx]
        unfold headNotDash
        simp [hx]

/-! ### Character-class facts -/

theorem isSlugKeep_not_space (c : Char) (h : isSlugKeep c = true) :
    isJsSpace c = false := by
  simp only [isSlugKeep, isAsciiLower, isAsciiDigit, Bool.or_eq_true,
    Bool.and_eq_true, decide_eq_true_eq] at h
  simp only [isJsSpace, Bool.or_eq_true, Bool.and_eq_true, decide_eq_true_eq,
    Bool.or_eq_false_iff, Bool.and_eq_false_iff, decide_eq_false_iff_not]
  omega

theorem isSlugKeep_not_run (c : Char) (h : isSlugKeep c = true) :
    isRunChar c = false := by
  have hs := isSlugKeep_not_space c h
  simp only [isSlugKeep, isAsciiLower, isAsciiDigit, Bool.or_eq_true,
    Bool.and_eq_true, decide_eq_true_eq] at h
  simp only [isRunChar, hs, Bool.or_false]
  have : c.toNat ≠ 95 := by omega
  simp only [decide_eq_false_iff_not]
  intro hc
  exact this (by rw [hc]; rfl)

theorem isSlugKeep_lower_fix (c : Char) (h : isSlugKeep c = true) :
    jsToLowerChar c = c := by
  simp only [isSlugKeep, isAsciiLower, isAsciiDigit, Bool.or_eq_true,
    Bool.and_eq_true, decide_eq_true_eq] at h
  unfold jsToLowerChar
  rw [if_neg]
  simp only [isAsciiUpper, Bool.and_eq_true, decide_eq_true_eq, not_and]
  omega

/-! ### Stage identities on already-clean lists -/

theorem jsToLower_fix (l : List Char) (h : ∀ c ∈ l, isSlugKeep c = true) :
    jsToLower l = l := by
  unfold jsToLower
  induction l with
  | nil => rfl
  | cons x xs ih =>
    rw [List.map_cons, isSlugKeep_lower_fix x (h x (by simp)),
      ih (fun c hc => h c (List.mem_cons_of_mem _ hc))]

theorem mem_of_head? (l : List Char) (z : Char) (h : l.head? = some z) :
    z ∈ l := by
  cases l with
  | nil => cases h
  | cons a as => cases h; simp

theorem jsTrim_fix (l : List Char) (h : ∀ c ∈ l, isSlugKeep c = true) :
    jsTrim l = l := by
  unfold jsTrim
  have h1 : l.dropWhile isJsSpace = l := by
    apply dropWhile_eq_self_of_head
    intro z hz
    exact isSlugKeep_not_space z (h z (mem_of_head? l z hz))
  rw [h1]
  have h2 : l.reverse.dropWhile isJsSpace = l.reverse := by
    apply dropWhile_eq_self_of_head
    intro z hz
    exact isSlugKeep_not_space z
      (h z (List.mem_reverse.mp (mem_of_head? _ z hz)))
  rw [h2, List.reverse_reverse]

theorem dashRuns_fix (l : List Char) (h : ∀ c ∈ l, isSlugKeep c = true) :
    dashRuns l = l := by
  unfold dashRuns
  induction l with
  | nil => rfl
  | cons x xs ih =>
    rw [dashRunsAux, isSlugKeep_not_run x (h x (by simp))]
    show x :: dashRunsAux false xs = x :: xs
    rw [ih (fun c hc => h c (List.mem_cons_of_mem _ hc))]

theorem collapseDashes_fix (l : List Char) :
    noDoubleDash l = true →
    (collapseDashAux false l = l ∧
      (headNotDash l = true → collapseDashAux true l = l)) := by
  induction l with
  | nil => exact fun _ => ⟨rfl, fun _ => rfl⟩
  | cons x xs ih =>
    intro hnd
    have hxs := noDoubleDash_cons x xs hnd
    by_cases hx : x = '-'
    · subst hx
      have hhead := noDoubleDash_dash_cons xs hnd
      constructor
      · rw [collapseDashAux, if_pos rfl]
        show '-' :: collapseDashAux true xs = '-' :: xs
        rw [(ih hxs).2 hhead]
      · intro hh
        unfold headNotDash at hh
        simp at hh
    · constructor
      · rw [collapseDashAux, if_neg hx, (ih hxs).1]
      · intro _
        rw [collapseDashAux, if_neg hx, (ih hxs).1]

theorem dropLeadDash_fix (l : List Char) (h : headNotDash l = true) :
    dropLeadDash l = l := by
  cases l with
  | nil => rfl
  | cons x xs =>
    have hx : x ≠ '-' := by simpa [headNotDash] using h
    unfold dropLeadDash
    split
    · rename_i heq
      cases heq
      exact absurd rfl hx
    · rfl

theorem dropTrailDash_fix (l : List Char) (h : lastNotDash l = true) :
    dropTrailDash l = l := by
  unfold dropTrailDash
  rw [if_neg]
  simpa [lastNotDash] using h

/-! ### The final dash trims preserve the invariants -/

theorem noDoubleDash_append_left (l2 : List Char) : ∀ l1 : List Char,
    noDoubleDash (l1 ++ l2) = true → noDoubleDash l1 = true := by
  intro l1
  induction l1 with
  | nil => intro _; rfl
  | cons x xs ih =>
    intro h
    cases xs with
    | nil => rfl
    | cons y r =>
      rw [List.cons_append, List.cons_append, noDoubleDash,
        Bool.and_eq_true] at h
      rw [noDoubleDash, Bool.and_eq_true]
      exact ⟨h.1, ih h.2⟩

theorem headNotDash_dropLast (l : List Char) (h : headNotDash l = true) :
    headNotDash l.dropLast = true := by
  cases l with
  | nil => rfl
  | cons x xs =>
    cases xs with
    | nil => rfl
    | cons y r => exact h

theorem getLast?_dropLast_ne_dash (l : List Char) :
    noDoubleDash l = true → l.getLast? = some '-' →
    lastNotDash l.dropLast = true := by
  induction l with
  | nil => intro _ hl; cases hl
  | cons x xs ih =>
    intro hnd hl
    cases xs with
    | nil =>
      rfl
    | cons y r =>
      cases r with
      | nil =>
        have hy : y = '-' := by simpa using hl
        subst hy
        rw [noDoubleDash, Bool.and_eq_true] at hnd
        have hx : ¬(x = '-') := by
          have h1 := hnd.1
          simpa using h1
        unfold lastNotDash
        simpa using hx
      | cons z r2 =>
        have hnd2 := noDoubleDash_cons x _ hnd
        have hl2 : (y :: z :: r2).getLast? = some '-' := by
          rw [← List.getLast?_cons_cons (a := x)]
          exact hl
        have hrec := ih hnd2 hl2
        unfold lastNotDash at hrec ⊢
        rw [show (x :: y :: z :: r2).dropLast = x :: y :: (z :: r2).dropLast
          from rfl, List.getLast?_cons_cons]
        rw [show (y :: z :: r2).dropLast = y :: (z :: r2).dropLast from rfl]
          at hrec
        exact hrec

theorem dropLeadDash_spec (l : List Char) (hnd : noDoubleDash l = true) :
    noDoubleDash (dropLeadDash l) = true ∧
    headNotDash (dropLeadDash l) = true ∧
    (∀ c ∈ dropLeadDash l, c ∈ l) := by
  cases l with
  | nil => exact ⟨rfl, rfl, fun c hc => hc⟩
  | cons x xs =>
    by_cases hx : x = '-'
    · subst hx
      have hd : dropLeadDash ('-' :: xs) = xs := rfl
      rw [hd]
      exact ⟨noDoubleDash_cons _ _ hnd, noDoubleDash_dash_cons _ hnd,
        fun c hc => List.mem_cons_of_mem _ hc⟩
    · have hh : headNotDash (x :: xs) = true := by
        unfold headNotDash
        simp [hx]
      rw [dropLeadDash_fix _ hh]
      exact ⟨hnd, hh, fun c hc => hc⟩

theorem dropTrailDash_spec (l : List Char) (hnd : noDoubleDash l = true)
    (hh : headNotDash l = true) :
    noDoubleDash (dropTrailDash l) = true ∧
    headNotDash (dropTrailDash l) = true ∧
    lastNotDash (dropTrailDash l) = true ∧
    (∀ c ∈ dropTrailDash l, c ∈ l) := by
  unfold dropTrailDash
  by_cases hl : l.getLast? = some '-'
  · rw [if_pos hl]
    refine ⟨?_, headNotDash_dropLast l hh, getLast?_dropLast_ne_dash l hnd hl,
      fun c hc => (List.dropLast_sublist l).mem hc⟩
    have hsplit : l.dropLast ++ l.getLast?.toList = l := by
      rw [hl]
      exact List.dropLast_append_getLast? '-' hl
    rw [← hsplit] at hnd
    exact noDoubleDash_append_left _ _ hnd
  · rw [if_neg hl]
    refine ⟨hnd, hh, ?_, fun c hc => hc⟩
    unfold lastNotDash
    simpa using hl

/-! ### Assembly: slugify output shape and idempotence -/

theorem slugify_good (l : List Char) :
    (∀ c ∈ slugify l, isSlugKeep c = true) ∧
    noDoubleDash (slugify l) = true ∧
    headNotDash (slugify l) = true ∧
    lastNotDash (slugify l) = true := by
  unfold slugify
  have hFkeep : ∀ c ∈ collapseDashes
      (List.filter isSlugKeep (dashRuns (jsTrim (jsToLower l)))),
      isSlugKeep c = true := by
    intro c hc
    rcases mem_collapseDashAux _ false c hc with rfl | hc2
    · rfl
    · exact List.of_mem_filter hc2
  have hFnd : noDoubleDash (collapseDashes
      (List.filter isSlugKeep (dashRuns (jsTrim (jsToLower l))))) = true :=
    (collapseDashAux_spec _).1 false
  obtain ⟨hGnd, hGh, hGsub⟩ := dropLeadDash_spec _ hFnd
  obtain ⟨hHnd, hHh, hHl, hHsub⟩ := dropTrailDash_spec _ hGnd hGh
  exact ⟨fun c hc => hFkeep c (hGsub c (hHsub c hc)), hHnd, hHh, hHl⟩

theorem slugify_fix_of_good (l : List Char)
    (hkeep : ∀ c ∈ l, isSlugKeep c = true)
    (hnd : noDoubleDash l = true) (hh : headNotDash l = true)
    (hl : lastNotDash l = true) : slugify l = l := by
  unfold slugify
  rw [jsToLower_fix l hkeep, jsTrim_fix l hkeep, dashRuns_fix l hkeep,
    List.filter_eq_self.mpr hkeep,
    show collapseDashes l = l from (collapseDashes_fix l hnd).1,
    dropLeadDash_fix l hh, dropTrailDash_fix l hl]

/-- C9: slugify is idempotent, and its output consists only of lower-case
letters, digits and dashes, with no leading, trailing or adjacent
dashes. -/
theorem slugify_idempotent_shape (l : List Char) :
    slugify (slugify l) = slugify l ∧
    (∀ c ∈ slugify l, isSlugKeep c = true) ∧
    noDoubleDash (slugify l) = true ∧
    headNotDash (slugify l) = true ∧
    lastNotDash (slugify l) = true := by
  obtain ⟨h1, h2, h3, h4⟩ := slugify_good l
  exact ⟨slugify_fix_of_good _ h1 h2 h3 h4, h1, h2, h3, h4⟩

/-- Witness for C9 at a concrete title: re-slugifying is a no-op and the
character membership conjunct applies to the slug's first character. -/
theorem slugify_idempotent_shape_witness :
    slugify (slugify "Dev  Summit!".data) = slugify "Dev  Summit!".data ∧
    isSlugKeep 'd' = true :=
  ⟨(slugify_idempotent_shape "Dev  Summit!".data).1,
   (slugify_idempotent_shape "Dev  Summit!".data).2.1 'd' (by decide)⟩

end DevEvents
